import Mathlib

/-!
Verification of the retrieval-and-grounding core of mortgage-agent.

The Python sources are shallowly embedded: texts are `List Char` or `String`,
machine floats that only ever feed comparisons are `ℚ`, SQLite tables are
association lists, and external capabilities (the embedding client, the faiss
index search, `np.linalg.norm`) are explicit function parameters.  Effectful
functions return their new state explicitly.
-/

/-- Python `str.strip()`: remove leading and trailing whitespace. -/
def pyStrip (s : List Char) : List Char :=
  ((s.dropWhile Char.isWhitespace).reverse.dropWhile Char.isWhitespace).reverse

/-- `pyStrip` on `String`s (Python strings are modelled as their char lists). -/
def pyStripString (s : String) : String :=
  String.mk (pyStrip s.toList)

/-! ## Chunker — src/app/rag/chunking.py

`chunk_text` loops `start := 0; while start < len(text): end := min(len, start
+ max_chars); append the stripped window text[start:end] if non-empty; break
if end == len; start := max(0, end - overlap)`.  After clamping, `overlap <
max_chars`, so `start` advances by at least one each iteration and `length + 1`
iterations always suffice; the loop is embedded with that bound as structural
fuel. -/

/-- `end = min(length, start + max_chars)` of one loop iteration. -/
def winEnd (t : List Char) (mc start : Nat) : Nat := min t.length (start + mc)

/-- `text[start:end].strip()` of one loop iteration. -/
def window (t : List Char) (mc start : Nat) : List Char :=
  pyStrip ((t.drop start).take (winEnd t mc start - start))

/-- The `while start < length` loop of `chunk_text`.  Nat subtraction in
`winEnd t mc start - ov` is Python's `max(0, end - overlap)`. -/
def chunkGo (t : List Char) (mc ov : Nat) : Nat → Nat → List (List Char)
  | 0, _ => []
  | fuel + 1, start =>
    if start < t.length then
      let tail := if winEnd t mc start = t.length then []
                  else chunkGo t mc ov fuel (winEnd t mc start - ov)
      if (window t mc start).isEmpty then tail else window t mc start :: tail
    else []

/-- `chunk_text(text, max_chars, overlap)` from src/app/rag/chunking.py.
`none` models the `ValueError` raised when `max_chars <= 0`; otherwise
`overlap` is clamped to `[0, max_chars - 1]` and the window loop runs. -/
def chunk_text (t : List Char) (max_chars overlap : Int) : Option (List (List Char)) :=
  if max_chars ≤ 0 then none
  else
    let ov := (max 0 (min overlap (max_chars - 1))).toNat
    some (chunkGo t max_chars.toNat ov (t.length + 1) 0)

/-- Concatenate chunks dropping the `ov`-char overlapping prefix of every chunk
after the first. -/
def joinOverlap (ov : Nat) : List (List Char) → List Char
  | [] => []
  | c :: cs => c ++ (cs.map (List.drop ov)).flatten

/-- A list with no whitespace characters is fixed by `pyStrip`. -/
lemma pyStrip_eq_self {s : List Char} (h : ∀ c ∈ s, c.isWhitespace = false) :
    pyStrip s = s := by
  have h1 : s.dropWhile Char.isWhitespace = s := by
    cases s with
    | nil => rfl
    | cons a l =>
      rw [List.dropWhile_cons_of_neg]
      simp [h a (by simp)]
  have h2 : s.reverse.dropWhile Char.isWhitespace = s.reverse := by
    cases hr : s.reverse with
    | nil => rfl
    | cons a l =>
      rw [List.dropWhile_cons_of_neg]
      have ha : a ∈ s := by
        rw [← List.mem_reverse, hr]; simp
      simp [h a ha]
  simp [pyStrip, h1, h2]

lemma pyStrip_length_le (s : List Char) : (pyStrip s).length ≤ s.length := by
  calc (pyStrip s).length
      ≤ (s.dropWhile Char.isWhitespace).length := by
        simpa [pyStrip] using (List.dropWhile_sublist (l := (s.dropWhile Char.isWhitespace).reverse)
          (p := Char.isWhitespace)).length_le
    _ ≤ s.length := (List.dropWhile_sublist (l := s) (p := Char.isWhitespace)).length_le

/-- Characters of a stripped list come from the original list. -/
lemma pyStrip_subset (s : List Char) : ∀ c ∈ pyStrip s, c ∈ s := by
  intro c hc
  have h1 := List.mem_reverse.mp (by simpa [pyStrip] using hc)
  have h3 := (List.dropWhile_sublist (l := (s.dropWhile Char.isWhitespace).reverse)
    (p := Char.isWhitespace)).subset h1
  have h4 := List.mem_reverse.mp (by simpa using h3)
  exact (List.dropWhile_sublist (l := s) (p := Char.isWhitespace)).subset h4

lemma window_length_le (t : List Char) (mc start : Nat) :
    (window t mc start).length ≤ mc := by
  calc (window t mc start).length
      ≤ ((t.drop start).take (winEnd t mc start - start)).length := pyStrip_length_le _
    _ ≤ winEnd t mc start - start := by
        rw [List.length_take]; omega
    _ ≤ mc := by unfold winEnd; omega

/-- Every chunk produced by the loop is at most `mc` characters long. -/
lemma chunkGo_length_le (t : List Char) (mc ov : Nat) :
    ∀ fuel start, ∀ c ∈ chunkGo t mc ov fuel start, c.length ≤ mc := by
  intro fuel
  induction fuel with
  | zero => intro start c hc; simp [chunkGo] at hc
  | succ n ih =>
    intro start c hc
    by_cases hs : start < t.length
    · rw [chunkGo, if_pos hs] at hc
      by_cases hw : (window t mc start).isEmpty
      · rw [if_pos hw] at hc
        by_cases he : winEnd t mc start = t.length
        · simp [he] at hc
        · rw [if_neg he] at hc
          exact ih _ c hc
      · rw [if_neg hw] at hc
        rcases List.mem_cons.mp hc with hc | hc
        · exact hc ▸ window_length_le t mc start
        · by_cases he : winEnd t mc start = t.length
          · simp [he] at hc
          · rw [if_neg he] at hc
            exact ih _ c hc
    · rw [chunkGo, if_neg hs] at hc
      simp at hc

/-- On whitespace-free text a window is the raw slice and is non-empty. -/
lemma window_of_no_ws (t : List Char) (mc start : Nat)
    (hws : ∀ c ∈ t, c.isWhitespace = false) (hs : start < t.length) (hmc : 0 < mc) :
    window t mc start = (t.drop start).take (winEnd t mc start - start) ∧
      (window t mc start).isEmpty = false := by
  have hsub : ∀ c ∈ (t.drop start).take (winEnd t mc start - start), c ∈ t := by
    intro c hc
    exact List.mem_of_mem_drop (List.mem_of_mem_take hc)
  have heq : window t mc start = (t.drop start).take (winEnd t mc start - start) :=
    pyStrip_eq_self (fun c hc => hws c (hsub c hc))
  refine ⟨heq, ?_⟩
  have hlen : ((t.drop start).take (winEnd t mc start - start)).length
      = winEnd t mc start - start := by
    rw [List.length_take, List.length_drop]
    unfold winEnd; omega
  have hpos : 0 < (window t mc start).length := by
    rw [heq, hlen]; unfold winEnd; omega
  cases hwin : window t mc start with
  | nil => rw [hwin] at hpos; simp at hpos
  | cons a l => rfl

/-- On whitespace-free text the loop reproduces the suffix `t.drop start` once
the overlapping prefixes are removed. -/
lemma chunkGo_reconstruct (t : List Char) (mc ov : Nat) (hov : ov < mc)
    (hws : ∀ c ∈ t, c.isWhitespace = false) :
    ∀ fuel start, t.length < fuel + start → start < t.length →
      joinOverlap ov (chunkGo t mc ov fuel start) = t.drop start := by
  intro fuel
  induction fuel with
  | zero => intro start hfs hs; omega
  | succ n ih =>
    intro start hfs hs
    have hmc : 0 < mc := by omega
    obtain ⟨hw0, hw0ne⟩ := window_of_no_ws t mc start hws hs hmc
    rw [chunkGo, if_pos hs, if_neg (by simp [hw0ne])]
    by_cases hend : winEnd t mc start = t.length
    · rw [if_pos hend]
      simp only [joinOverlap, List.map_nil, List.flatten_nil, List.append_nil]
      rw [hw0, hend]
      have h1 : t.length - start = (t.drop start).length := by simp
      rw [h1, List.take_length]
    · rw [if_neg hend]
      have hlt : start + mc < t.length := by
        unfold winEnd at hend; omega
      have hee : winEnd t mc start = start + mc := by
        unfold winEnd; omega
      set start2 := winEnd t mc start - ov with hstart2
      have hs2 : start2 < t.length := by omega
      have hfs2 : t.length < n + start2 := by omega
      obtain ⟨n2, hn2⟩ : ∃ n2, n = n2 + 1 := by
        rcases n with _ | n2
        · exfalso; omega
        · exact ⟨n2, rfl⟩
      obtain ⟨hw1, hw1ne⟩ := window_of_no_ws t mc start2 hws hs2 hmc
      have hw1len : (window t mc start2).length = winEnd t mc start2 - start2 := by
        rw [hw1, List.length_take, List.length_drop]
        unfold winEnd; omega
      have hovw1 : ov ≤ (window t mc start2).length := by
        rw [hw1len]; unfold winEnd; omega
      have htail := ih start2 hfs2 hs2
      have hrest : chunkGo t mc ov n start2
          = window t mc start2 ::
            (if winEnd t mc start2 = t.length then []
             else chunkGo t mc ov n2 (winEnd t mc start2 - ov)) := by
        rw [hn2, chunkGo, if_pos hs2, if_neg (by simp [hw1ne])]
      set rest := (if winEnd t mc start2 = t.length then []
             else chunkGo t mc ov n2 (winEnd t mc start2 - ov)) with hrestdef
      rw [hrest]
      have hIH : window t mc start2 ++ (rest.map (List.drop ov)).flatten
          = t.drop start2 := by
        rw [hrest] at htail
        simpa [joinOverlap] using htail
      simp only [joinOverlap, List.map_cons, List.flatten_cons]
      rw [← List.append_assoc,  List.append_assoc (window t mc start)]
      have hdropsplit : (window t mc start2).drop ov ++ (rest.map (List.drop ov)).flatten
          = ((window t mc start2) ++ (rest.map (List.drop ov)).flatten).drop ov := by
        rw [List.drop_append_of_le_length hovw1]
      rw [hdropsplit, hIH]
      have hdd : (t.drop start2).drop ov = t.drop (winEnd t mc start) := by
        rw [List.drop_drop]
        congr 1
        omega
      rw [hdd, hw0]
      have h1 : t.drop (winEnd t mc start) = (t.drop start).drop (winEnd t mc start - start) := by
        rw [List.drop_drop]
        congr 1
        unfold winEnd; omega
      rw [h1, List.take_append_drop]

/-- C3 — corrected.  For every text and valid `(max_chars, overlap)` pair,
`chunk_text` succeeds, every returned chunk has length at most `max_chars`,
and — for texts containing no whitespace, which the stripping of each window
leaves intact — concatenating the chunks with each later chunk's overlapping
prefix removed reconstructs the text exactly. -/
theorem chunk_text_windows_cover (t : List Char) (max_chars overlap : Int)
    (hmc : 0 < max_chars) :
    ∃ cs, chunk_text t max_chars overlap = some cs ∧
      (∀ c ∈ cs, c.length ≤ max_chars.toNat) ∧
      ((∀ ch ∈ t, ch.isWhitespace = false) →
        joinOverlap ((max 0 (min overlap (max_chars - 1))).toNat) cs = t) := by
  have hne : ¬ max_chars ≤ 0 := by omega
  refine ⟨chunkGo t max_chars.toNat ((max 0 (min overlap (max_chars - 1))).toNat)
    (t.length + 1) 0, ?_, ?_, ?_⟩
  · rw [chunk_text, if_neg hne]
  · intro c hc
    exact chunkGo_length_le t _ _ _ _ c hc
  · intro hws
    rcases Nat.eq_zero_or_pos t.length with h0 | h0
    · have ht : t = [] := List.eq_nil_of_length_eq_zero h0
      subst ht
      rw [chunkGo]
      simp [joinOverlap]
    · have hov : (max 0 (min overlap (max_chars - 1))).toNat < max_chars.toNat := by
        omega
      have := chunkGo_reconstruct t max_chars.toNat
        ((max 0 (min overlap (max_chars - 1))).toNat) hov hws (t.length + 1) 0
        (by omega) h0
      simpa using this

/-- Witness for C3's theorem at `t = "abc"`, `max_chars = 2`, `overlap = 1`. -/
theorem chunk_text_windows_cover_witness :
    ∃ cs, chunk_text ['a', 'b', 'c'] 2 1 = some cs ∧
      (∀ c ∈ cs, c.length ≤ (2 : Int).toNat) ∧
      ((∀ ch ∈ ['a', 'b', 'c'], ch.isWhitespace = false) →
        joinOverlap ((max 0 (min 1 ((2 : Int) - 1))).toNat) cs = ['a', 'b', 'c']) :=
  chunk_text_windows_cover ['a', 'b', 'c'] 2 1 (by norm_num)

/-- Counterexample to C3 as stated: on the text `"a "` (with `max_chars = 5`,
`overlap = 0`) the single window is stripped to `"a"`, so concatenating the
chunks with overlapping prefixes removed yields `"a"`, not the original text. -/
theorem chunk_text_reconstruct_cex :
    (chunk_text ['a', ' '] 5 0).map (joinOverlap 0) ≠ some ['a', ' '] := by
  decide

/-! ## Grounding Validator — src/app/core/grounding.py

Citation markers are matches of the regex `\[(S\d+)\]`.  The scan below walks
the text left to right exactly as `re.finditer` does: at a `[S` followed by a
non-empty digit run and `]` it emits the marker and resumes after the `]`;
at any other character it advances by one.  (Backtracking inside `\d+` can
never rescue a failed match, since the character after a shorter digit run is
a digit, not `]`.)  Every recursive call is on a strictly shorter list, so
`length + 1` steps of fuel always suffice. -/

/-- The left-to-right regex scan for `[S<digits>]` markers. -/
def scanGo : Nat → List Char → List String
  | 0, _ => []
  | fuel + 1, cs =>
    match cs with
    | '[' :: 'S' :: rest =>
      (match rest.dropWhile Char.isDigit with
       | ']' :: rest2 =>
         if (rest.takeWhile Char.isDigit).isEmpty then scanGo fuel ('S' :: rest)
         else String.mk ('S' :: rest.takeWhile Char.isDigit) :: scanGo fuel rest2
       | _ => scanGo fuel ('S' :: rest))
    | _ :: rest => scanGo fuel rest
    | [] => []

/-- De-duplicate preserving first-occurrence order (the `seen` set plus
`ordered` list loop of `extract_source_citations`). -/
def dedupKeepOrder (l : List String) : List String :=
  l.foldl (fun acc c => if acc.contains c then acc else acc ++ [c]) []

/-- `extract_source_citations(text)` from src/app/core/grounding.py. -/
def extract_source_citations (text : String) : List String :=
  if text = "" then []
  else dedupKeepOrder (scanGo (text.toList.length + 1) text.toList)

/-- Lexicographic comparison of char lists: Python's string `<=` by code
point, used to model `sorted` over citation-id strings. -/
def lexLe : List Char → List Char → Bool
  | [], _ => true
  | _ :: _, [] => false
  | a :: as, b :: bs => if a < b then true else if b < a then false else lexLe as bs

/-- Python `sorted` over strings (a stable sort; on the duplicate-free lists
it is applied to here, any sort by the same order agrees with it). -/
def pySortedStrings (l : List String) : List String :=
  List.insertionSort (fun a b : String => lexLe a.toList b.toList = true) l

/-- The result dict of `enforce_grounding`; absent keys are `none`. -/
structure GroundingResult where
  citations : List String
  ok : Bool
  reason : Option String := none
  invalid : Option (List String) := none
  text : Option String := none
  warning : Option (List String) := none
deriving DecidableEq, Repr

/-- `enforce_grounding(text, allowed, citations_required, strict)` from
src/app/core/grounding.py.  The code's `invalid` is the set difference
`extracted − allowed`; it is carried here as the sorted duplicate-free list
`sorted(invalid)`, the only form in which the code uses it (its truthiness
and the attached payloads). -/
def invalidCitationsOf (extracted allowed : List String) : List String :=
  pySortedStrings (extracted.filter (fun c => !(allowed.contains c)))

def enforce_grounding (text : String) (allowed : List String)
    (citations_required strict : Bool) : GroundingResult :=
  let extracted_ordered := extract_source_citations text
  let invalid := invalidCitationsOf extracted_ordered allowed
  if citations_required && extracted_ordered.isEmpty then
    { citations := extracted_ordered, ok := false, reason := some "NO_CITATIONS" }
  else if !invalid.isEmpty && strict then
    { citations := extracted_ordered, ok := false,
      reason := some "INVALID_CITATIONS", invalid := some invalid }
  else
    { citations := extracted_ordered, ok := true, text := some text,
      warning := if invalid.isEmpty then none else some invalid }

/-- C4 — confirmed.  `enforce_grounding` rejects with `NO_CITATIONS` when
citations are required and the text contains no `[S<digits>]` marker,
regardless of `strict`; otherwise rejects with `INVALID_CITATIONS` and the
invalid id list when the extracted-but-not-allowed set is non-empty and
`strict` holds; otherwise accepts, attaching the invalid ids as a non-fatal
warning exactly when they are non-empty (which can only happen with
`strict = false`). -/
theorem enforce_grounding_decision (text : String) (allowed : List String)
    (cr strict : Bool) :
    (cr = true → extract_source_citations text = [] →
      enforce_grounding text allowed cr strict
        = { citations := [], ok := false, reason := some "NO_CITATIONS" }) ∧
    ((cr = true → extract_source_citations text ≠ []) →
      invalidCitationsOf (extract_source_citations text) allowed ≠ [] →
      strict = true →
      enforce_grounding text allowed cr strict
        = { citations := extract_source_citations text, ok := false,
            reason := some "INVALID_CITATIONS",
            invalid := some (invalidCitationsOf (extract_source_citations text) allowed) }) ∧
    ((cr = true → extract_source_citations text ≠ []) →
      (strict = true → invalidCitationsOf (extract_source_citations text) allowed = []) →
      ((enforce_grounding text allowed cr strict).ok = true ∧
       (enforce_grounding text allowed cr strict).citations
          = extract_source_citations text ∧
       (enforce_grounding text allowed cr strict).reason = none ∧
       (enforce_grounding text allowed cr strict).text = some text ∧
       (invalidCitationsOf (extract_source_citations text) allowed ≠ [] →
         strict = false ∧
         (enforce_grounding text allowed cr strict).warning
            = some (invalidCitationsOf (extract_source_citations text) allowed)) ∧
       (invalidCitationsOf (extract_source_citations text) allowed = [] →
         (enforce_grounding text allowed cr strict).warning = none))) := by
  refine ⟨?_, ?_, ?_⟩
  · intro hcr hext
    simp [enforce_grounding, hext, hcr, invalidCitationsOf, pySortedStrings]
  · intro hne hinv hstrict
    have hext : extract_source_citations text ≠ [] := by
      intro h
      apply hinv
      simp [invalidCitationsOf, h, pySortedStrings]
    have h1 : (cr && (extract_source_citations text).isEmpty) = false := by
      rcases cr with _ | _
      · rfl
      · simp [List.isEmpty_iff, hext]
    have h2 : (!(invalidCitationsOf (extract_source_citations text) allowed).isEmpty
        && strict) = true := by
      simp [hstrict, List.isEmpty_iff, hinv]
    simp only [enforce_grounding, h1, h2]
    simp
  · intro hne hok
    have h1 : (cr && (extract_source_citations text).isEmpty) = false := by
      rcases cr with _ | _
      · rfl
      · simp only [Bool.true_and, List.isEmpty_iff]
        by_cases h : extract_source_citations text = []
        · exact absurd h (hne rfl)
        · simp [h]
    have h2 : (!(invalidCitationsOf (extract_source_citations text) allowed).isEmpty
        && strict) = false := by
      rcases strict with _ | _
      · simp
      · simp [hok rfl]
    simp only [enforce_grounding, h1, h2]
    simp only [Bool.false_eq_true, if_false]
    refine ⟨by simp, by simp, by simp, by simp, ?_, ?_⟩
    · intro hinv
      have hs : strict = false := by
        rcases strict with _ | _
        · rfl
        · exact absurd (hok rfl) hinv
      refine ⟨hs, ?_⟩
      simp [List.isEmpty_iff, hinv]
    · intro hinv
      simp [List.isEmpty_iff, hinv]

/-! ## Quota Tracker — src/app/core/limits.py

The `sessions` and `daily_usage` SQLite tables are association lists keyed by
`session_id` and by `(usage_date, user_id_hash)`; `SELECT` is `List.lookup`,
`INSERT` appends, `UPDATE` and the upsert's `DO UPDATE` map over the rows.
`_today()` (the clock) is passed in as the `today` argument. -/

structure SessionRow where
  user_id_hash : String
  created_at : String
  question_count : Int
deriving DecidableEq, Repr

structure QuotaDb where
  sessions : List (String × SessionRow)
  daily_usage : List ((String × String) × Int)
deriving DecidableEq, Repr

/-- `ensure_session(db_path, session_id, user_id_hash)`: insert a fresh row
with `question_count = 0` only when no row with this `session_id` exists. -/
def ensure_session (db : QuotaDb) (session_id user_id_hash now : String) : QuotaDb :=
  match db.sessions.lookup session_id with
  | some _ => db
  | none =>
    { db with sessions := db.sessions ++
        [(session_id, { user_id_hash := user_id_hash, created_at := now,
                        question_count := 0 })] }

/-- The `INSERT ... ON CONFLICT ... DO UPDATE SET question_count = question_count + 1`
upsert on `daily_usage`. -/
def upsertDaily (du : List ((String × String) × Int)) (key : String × String) :
    List ((String × String) × Int) :=
  match du.lookup key with
  | some _ => du.map (fun kv => if kv.1 = key then (kv.1, kv.2 + 1) else kv)
  | none => du ++ [(key, 1)]

/-- `UPDATE sessions SET question_count = question_count + 1 WHERE session_id = ?`. -/
def bumpSession (ss : List (String × SessionRow)) (sid : String) :
    List (String × SessionRow) :=
  ss.map (fun kv => if kv.1 = sid then
    (kv.1, { kv.2 with question_count := kv.2.question_count + 1 }) else kv)

structure QuotaOutcome where
  allowed : Bool
  reason : String
  state : QuotaDb
deriving DecidableEq, Repr

/-- `check_and_increment(db_path, user_id_hash, session_id, q_limit_day,
q_limit_session)` from src/app/core/limits.py; every early `return` carries
the unchanged database. -/
def check_and_increment (db : QuotaDb) (today user_id_hash session_id : String)
    (q_limit_day q_limit_session : Int) : QuotaOutcome :=
  if q_limit_day ≤ (db.daily_usage.lookup (today, user_id_hash)).getD 0 then
    { allowed := false, reason := "QUESTION_LIMIT_PER_DAY", state := db }
  else
    match db.sessions.lookup session_id with
    | none => { allowed := false, reason := "SESSION_NOT_INITIALIZED", state := db }
    | some row =>
      if q_limit_session ≤ row.question_count then
        { allowed := false, reason := "QUESTION_LIMIT_PER_SESSION", state := db }
      else
        { allowed := true, reason := "OK",
          state := { sessions := bumpSession db.sessions session_id,
                     daily_usage := upsertDaily db.daily_usage (today, user_id_hash) } }

/-- The database after `n` consecutive `check_and_increment` calls. -/
def quotaIter (today uh sid : String) (dl sl : Int) : Nat → QuotaDb → QuotaDb
  | 0, db => db
  | n + 1, db => quotaIter today uh sid dl sl n
      (check_and_increment db today uh sid dl sl).state

/-- A user with an initialized, unused session and no daily usage yet: the
starting state of the 11-request quota scenario. -/
def quotaScenarioDb : QuotaDb :=
  { sessions := [("s", { user_id_hash := "u", created_at := "t", question_count := 0 })],
    daily_usage := [] }

/-- C1 — corrected (the code's rejection reasons are the strings
`QUESTION_LIMIT_PER_DAY` and `QUESTION_LIMIT_PER_SESSION`, not `DAY_LIMIT` and
`SESSION_LIMIT`).  With the actual reason strings: a daily count at or above
`q_limit_day` rejects with `QUESTION_LIMIT_PER_DAY`; below it, an existing
session at or above `q_limit_session` rejects with
`QUESTION_LIMIT_PER_SESSION`; and from a fresh state with `day_limit = 10`
requests 1–10 are allowed and the 11th is rejected with the day reason, with
`session_limit = 10` behaving identically per session. -/
theorem check_and_increment_limit_behavior (db : QuotaDb) (today uh sid : String)
    (dl sl : Int) :
    (dl ≤ (db.daily_usage.lookup (today, uh)).getD 0 →
      check_and_increment db today uh sid dl sl
        = { allowed := false, reason := "QUESTION_LIMIT_PER_DAY", state := db }) ∧
    (∀ row, (db.daily_usage.lookup (today, uh)).getD 0 < dl →
      db.sessions.lookup sid = some row → sl ≤ row.question_count →
      check_and_increment db today uh sid dl sl
        = { allowed := false, reason := "QUESTION_LIMIT_PER_SESSION", state := db }) ∧
    (∀ n, n < 10 → (check_and_increment (quotaIter "d" "u" "s" 10 100 n quotaScenarioDb)
        "d" "u" "s" 10 100).allowed = true) ∧
    (check_and_increment (quotaIter "d" "u" "s" 10 100 10 quotaScenarioDb) "d" "u" "s" 10 100
        = { allowed := false, reason := "QUESTION_LIMIT_PER_DAY",
            state := quotaIter "d" "u" "s" 10 100 10 quotaScenarioDb }) ∧
    (∀ n, n < 10 → (check_and_increment (quotaIter "d" "u" "s" 100 10 n quotaScenarioDb)
        "d" "u" "s" 100 10).allowed = true) ∧
    (check_and_increment (quotaIter "d" "u" "s" 100 10 10 quotaScenarioDb) "d" "u" "s" 100 10
        = { allowed := false, reason := "QUESTION_LIMIT_PER_SESSION",
            state := quotaIter "d" "u" "s" 100 10 10 quotaScenarioDb }) := by
  refine ⟨?_, ?_, by decide, by decide, by decide, by decide⟩
  · intro h
    simp [check_and_increment, h]
  · intro row h1 h2 h3
    have h1n : ¬ dl ≤ (db.daily_usage.lookup (today, uh)).getD 0 := by omega
    simp [check_and_increment, h1n, h2, h3]

/-- Counterexample to C1 as stated: at the day limit the code rejects with
reason `QUESTION_LIMIT_PER_DAY`, not the spec's `DAY_LIMIT`. -/
theorem check_and_increment_day_reason_cex :
    (check_and_increment
      { sessions := [("s", { user_id_hash := "u", created_at := "t", question_count := 0 })],
        daily_usage := [(("d", "u"), 10)] } "d" "u" "s" 10 10).allowed = false ∧
    (check_and_increment
      { sessions := [("s", { user_id_hash := "u", created_at := "t", question_count := 0 })],
        daily_usage := [(("d", "u"), 10)] } "d" "u" "s" 10 10).reason ≠ "DAY_LIMIT" := by
  decide

/-- C8 — confirmed.  `ensure_session` inserts a `question_count = 0` row when
the session is new and leaves the database (including every existing row)
untouched when the session already exists. -/
theorem ensure_session_upsert (db : QuotaDb) (sid uh now : String) :
    (db.sessions.lookup sid = none →
      ensure_session db sid uh now
        = { db with sessions := db.sessions ++
            [(sid, { user_id_hash := uh, created_at := now, question_count := 0 })] }) ∧
    (∀ row, db.sessions.lookup sid = some row → ensure_session db sid uh now = db) := by
  constructor
  · intro h
    simp [ensure_session, h]
  · intro row h
    simp [ensure_session, h]

/-- C9 — confirmed.  Whenever `check_and_increment` rejects (for any reason)
the database is returned unchanged: no daily-usage upsert and no session
increment happens. -/
theorem check_and_increment_reject_frame (db : QuotaDb) (today uh sid : String)
    (dl sl : Int)
    (h : (check_and_increment db today uh sid dl sl).allowed = false) :
    (check_and_increment db today uh sid dl sl).state = db := by
  by_cases h1 : dl ≤ (db.daily_usage.lookup (today, uh)).getD 0
  · simp [check_and_increment, h1]
  · cases hs : db.sessions.lookup sid with
    | none => simp [check_and_increment, h1, hs]
    | some row =>
      by_cases h2 : sl ≤ row.question_count
      · simp [check_and_increment, h1, hs, h2]
      · exfalso
        rw [check_and_increment] at h
        simp [h1, hs, h2] at h

/-- Witness for C9's theorem: an uninitialized session is rejected and the
(empty) database is unchanged. -/
theorem check_and_increment_reject_frame_witness :
    (check_and_increment { sessions := [], daily_usage := [] } "d" "u" "s" 10 10).state
      = { sessions := [], daily_usage := [] } :=
  check_and_increment_reject_frame
    { sessions := [], daily_usage := [] } "d" "u" "s" 10 10 (by decide)

/-! ## Rate Limiter — src/app/core/rate_limit.py

`_REQUEST_HISTORY` maps `(client_ip, request_path)` to a deque of request
timestamps (floats from `time.time()`; the limiter only subtracts and
compares them, so they are carried as exact integers here — every scenario the
claims name happens at whole-second times).  `enforce_rate_limit`
prunes the front of the key's deque while `now - dq[0] > window`, raises 429
(modelled as `false`) if at least `max_requests` timestamps remain, and
otherwise appends `now` and returns normally (`true`).  The `setdefault` plus
in-place mutation is modelled by writing the final deque back to the key. -/

abbrev RlKey := String × String

abbrev RlState := List (RlKey × List Int)

/-- Store the mutated deque under its key (the effect of `setdefault` plus
in-place `popleft`/`append`). -/
def setRlKey (st : RlState) (key : RlKey) (dq : List Int) : RlState :=
  if (st.lookup key).isSome then
    st.map (fun kv => if kv.1 = key then (kv.1, dq) else kv)
  else st ++ [(key, dq)]

/-- The `while dq and now - dq[0] > window: dq.popleft()` pruning loop. -/
def prunedDq (window : Int) (now : Int) (dq : List Int) : List Int :=
  dq.dropWhile (fun t => decide (window < now - t))

/-- `enforce_rate_limit` from src/app/core/rate_limit.py; the returned `Bool`
is `false` when the request is rejected with HTTP 429, and the returned state
is the updated `_REQUEST_HISTORY`.  When `settings.ip_rate_limit_enabled` is
false the function returns immediately without touching the map. -/
def enforce_rate_limit (enabled : Bool) (window max_requests : Int) (st : RlState)
    (key : RlKey) (now : Int) : Bool × RlState :=
  if !enabled then (true, st)
  else if max_requests ≤ (prunedDq window now ((st.lookup key).getD [])).length then
    (false, setRlKey st key (prunedDq window now ((st.lookup key).getD [])))
  else (true, setRlKey st key (prunedDq window now ((st.lookup key).getD []) ++ [now]))

/-- Run the limiter over a sequence of request timestamps for one key,
collecting each request's admission decision. -/
def rateSeq (window max_requests : Int) (key : RlKey) :
    List Int → RlState → RlState × List Bool
  | [], st => (st, [])
  | t :: ts, st =>
    let r := enforce_rate_limit true window max_requests st key t
    let rest := rateSeq window max_requests key ts r.2
    (rest.1, r.1 :: rest.2)

lemma lookup_map_update (st : RlState) (key : RlKey) (dq : List Int) :
    (st.map (fun kv => if kv.1 = key then (kv.1, dq) else kv)).lookup key
      = if (st.lookup key).isSome then some dq else none := by
  induction st with
  | nil => simp
  | cons kv rest ih =>
    rcases kv with ⟨k0, d0⟩
    by_cases h : k0 = key
    · subst h
      simp [List.lookup_cons]
    · have hbeq : (key == k0) = false := beq_false_of_ne (Ne.symm h)
      have hif : (if (k0, d0).1 = key then ((k0, d0).1, dq) else (k0, d0)) = (k0, d0) := by
        simp [h]
      simp only [List.map_cons, hif, List.lookup_cons, hbeq]
      exact ih

lemma lookup_append_single (st : RlState) (key : RlKey) (dq : List Int)
    (h : st.lookup key = none) :
    (st ++ [(key, dq)]).lookup key = some dq := by
  induction st with
  | nil => simp
  | cons kv rest ih =>
    rcases kv with ⟨k0, d0⟩
    by_cases hk : key = k0
    · exfalso
      subst hk
      rw [List.lookup_cons_self] at h
      exact Option.noConfusion h
    · have hbeq : (key == k0) = false := beq_false_of_ne hk
      simp only [List.lookup_cons, hbeq] at h
      simp only [List.cons_append, List.lookup_cons, hbeq]
      exact ih h

/-- After writing a deque under a key, looking the key up returns it. -/
lemma lookup_setRlKey (st : RlState) (key : RlKey) (dq : List Int) :
    (setRlKey st key dq).lookup key = some dq := by
  unfold setRlKey
  cases h : st.lookup key with
  | some v => simp [lookup_map_update, h]
  | none =>
    rw [if_neg (by simp [h])]
    exact lookup_append_single st key dq h

/-- On an ascending deque the front-pruning loop removes exactly the
timestamps older than the window. -/
lemma prunedDq_eq_filter (w : Int) (now : Int) (dq : List Int)
    (h : List.Sorted (· ≤ ·) dq) :
    prunedDq w now dq = dq.filter (fun t => decide (now - t ≤ w)) := by
  induction dq with
  | nil => rfl
  | cons a l ih =>
    by_cases ha : w < now - a
    · have h1 : prunedDq w now (a :: l) = prunedDq w now l := by
        unfold prunedDq
        rw [List.dropWhile_cons, if_pos (decide_eq_true ha)]
      have h2 : decide (now - a ≤ w) = false :=
        decide_eq_false (not_le.mpr ha)
      rw [h1, ih (List.Sorted.of_cons h), List.filter_cons, h2]
      simp only [Bool.false_eq_true, if_false]
    · have hle : now - a ≤ w := le_of_not_lt ha
      have h1 : prunedDq w now (a :: l) = a :: l := by
        unfold prunedDq
        rw [List.dropWhile_cons, if_neg (by simpa using ha)]
      have h2 : l.filter (fun t => decide (now - t ≤ w)) = l := by
        rw [List.filter_eq_self]
        intro t ht
        have hat : a ≤ t := List.rel_of_sorted_cons h t ht
        exact decide_eq_true (by omega)
      rw [h1, List.filter_cons, if_pos (decide_eq_true hle), h2]

set_option maxRecDepth 8000 in
/-- C6 — confirmed.  Each check prunes the timestamps older than the window
(exactly those, on the sorted deques the limiter builds), rejects iff at least
`max_requests` remain, and appends the current timestamp exactly when it
allows; from an empty state with `window = 60, max = 30`, requests at seconds
0–29 are allowed, the 31st request (second 30, within 60s of them all) is
rejected, and once the window has elapsed (second 200) the next request is
allowed again. -/
theorem enforce_rate_limit_window (w m : Int) (st : RlState) (key : RlKey) (now : Int) :
    (List.Sorted (· ≤ ·) ((st.lookup key).getD []) →
      prunedDq w now ((st.lookup key).getD [])
        = ((st.lookup key).getD []).filter (fun t => decide (now - t ≤ w))) ∧
    ((enforce_rate_limit true w m st key now).1 = true ↔
      ((prunedDq w now ((st.lookup key).getD [])).length : Int) < m) ∧
    ((enforce_rate_limit true w m st key now).1 = true →
      (enforce_rate_limit true w m st key now).2.lookup key
        = some (prunedDq w now ((st.lookup key).getD []) ++ [now])) ∧
    ((enforce_rate_limit true w m st key now).1 = false →
      (enforce_rate_limit true w m st key now).2.lookup key
        = some (prunedDq w now ((st.lookup key).getD []))) ∧
    ((rateSeq 60 30 ("ip", "/chat") ((List.range 31).map (fun n => (n : Int))) []).2
        = List.replicate 30 true ++ [false]) ∧
    ((enforce_rate_limit true 60 30
        (rateSeq 60 30 ("ip", "/chat") ((List.range 31).map (fun n => (n : Int))) []).1
        ("ip", "/chat") 200).1 = true) := by
  refine ⟨fun hs => prunedDq_eq_filter w now _ hs, ?_, ?_, ?_, by decide, by decide⟩
  · by_cases hc : m ≤ ((prunedDq w now ((st.lookup key).getD [])).length : Int)
    · simp only [enforce_rate_limit, Bool.not_true, Bool.false_eq_true, if_false, if_pos hc]
      constructor
      · intro h; exact absurd h (by simp)
      · intro h; omega
    · simp only [enforce_rate_limit, Bool.not_true, Bool.false_eq_true, if_false, if_neg hc]
      constructor
      · intro _; omega
      · intro _; trivial
  · intro h
    by_cases hc : m ≤ ((prunedDq w now ((st.lookup key).getD [])).length : Int)
    · exfalso
      rw [enforce_rate_limit] at h
      simp only [Bool.not_true, Bool.false_eq_true, if_false, if_pos hc] at h
    · rw [enforce_rate_limit]
      simp only [Bool.not_true, Bool.false_eq_true, if_false, if_neg hc]
      exact lookup_setRlKey st key _
  · intro h
    by_cases hc : m ≤ ((prunedDq w now ((st.lookup key).getD [])).length : Int)
    · rw [enforce_rate_limit]
      simp only [Bool.not_true, Bool.false_eq_true, if_false, if_pos hc]
      exact lookup_setRlKey st key _
    · exfalso
      rw [enforce_rate_limit] at h
      simp only [Bool.not_true, Bool.false_eq_true, if_false, if_neg hc] at h
      exact Bool.noConfusion h

/-- C10 — confirmed.  A rejected request's timestamp is never appended: the
deque stored after a rejection is a sublist of the deque before it, so a fresh
timestamp never enters the history through a rejected request. -/
theorem enforce_rate_limit_reject_no_append (w m : Int) (st : RlState) (key : RlKey)
    (now : Int)
    (h : (enforce_rate_limit true w m st key now).1 = false) :
    (((enforce_rate_limit true w m st key now).2.lookup key).getD []).Sublist
        ((st.lookup key).getD []) ∧
    (now ∉ (st.lookup key).getD [] →
      now ∉ ((enforce_rate_limit true w m st key now).2.lookup key).getD []) := by
  by_cases hc : m ≤ ((prunedDq w now ((st.lookup key).getD [])).length : Int)
  · have hlook : (enforce_rate_limit true w m st key now).2.lookup key
        = some (prunedDq w now ((st.lookup key).getD [])) := by
      rw [enforce_rate_limit]
      simp only [Bool.not_true, Bool.false_eq_true, if_false, if_pos hc]
      exact lookup_setRlKey st key _
    rw [hlook]
    have hsub : (prunedDq w now ((st.lookup key).getD [])).Sublist
        ((st.lookup key).getD []) := List.dropWhile_sublist _
    exact ⟨hsub, fun hmem hcontra => hmem (hsub.subset hcontra)⟩
  · exfalso
    rw [enforce_rate_limit] at h
    simp only [Bool.not_true, Bool.false_eq_true, if_false, if_neg hc] at h
    exact Bool.noConfusion h

/-- Witness for C10's theorem: with `max_requests = 1` and one fresh timestamp
recorded, the next request is rejected and its timestamp is not recorded. -/
theorem enforce_rate_limit_reject_no_append_witness :
    (((enforce_rate_limit true 60 1 [(("ip", "/p"), [0])] ("ip", "/p") 1).2.lookup
        ("ip", "/p")).getD []).Sublist
      ((([(("ip", "/p"), [0])] : RlState).lookup ("ip", "/p")).getD []) ∧
    ((1 : Int) ∉ (([(("ip", "/p"), [0])] : RlState).lookup ("ip", "/p")).getD [] →
      (1 : Int) ∉ ((enforce_rate_limit true 60 1 [(("ip", "/p"), [0])]
        ("ip", "/p") 1).2.lookup ("ip", "/p")).getD []) :=
  enforce_rate_limit_reject_no_append 60 1 [(("ip", "/p"), [0])] ("ip", "/p") 1 (by decide)

/-! ## Retriever — src/app/rag/retriever.py

`retrieve` is embedded over an environment carrying the pieces the function
reads from the outside world: the configured settings, whether the Vector
Index artifact exists (`os.path.exists`), the embedding client, numpy's
`linalg.norm` (the one float operation whose value feeds arithmetic — kept
opaque), the faiss `index.search` (returning `(score, row_index)` pairs, with
negative padding indices), and the Metadata Store join `_fetch_chunk_metadata`.
Scores are compared but never added, so they are carried as `ℚ`. -/

/-- A row of `_fetch_chunk_metadata` (its `jurisdiction` already defaulted to
`""` as `row[4] or ""` does). -/
structure ChunkMeta where
  chunk_id : String
  text : String
  doc_id : String
  title : String
  jurisdiction : String
  source_url : Option String
  source_name : Option String
deriving DecidableEq, Repr

/-- A raw search hit joined with its metadata (the `chunk_hits` dicts). -/
structure ChunkHit where
  chunk_id : String
  doc_id : String
  score : ℚ
  title : String
  jurisdiction : String
  text : String
  source_url : Option String
  source_name : Option String
deriving DecidableEq, Repr

def mkChunkHit (m : ChunkMeta) (score : ℚ) : ChunkHit :=
  { chunk_id := m.chunk_id, doc_id := m.doc_id, score := score, title := m.title,
    jurisdiction := m.jurisdiction, text := m.text, source_url := m.source_url,
    source_name := m.source_name }

/-- One entry of the `groups` dict. -/
structure SourceGroup where
  source_url : Option String
  doc_id : String
  title : String
  jurisdiction : String
  source_name : Option String
  chunks : List ChunkHit
  best_score : ℚ
  first_rank : Nat
deriving DecidableEq, Repr

/-- `source_key = chunk["source_url"] or chunk["doc_id"]` (`None` and the
empty string are both falsy). -/
def sourceKey (c : ChunkHit) : String :=
  match c.source_url with
  | some u => if u = "" then c.doc_id else u
  | none => c.doc_id

/-- The group freshly created for an unseen key (`chunks` starts empty; the
hit itself is appended by the common code below). -/
def newGroup (c : ChunkHit) (rank : Nat) : SourceGroup :=
  { source_url := c.source_url, doc_id := c.doc_id,
    title := if c.title = "" then "Untitled Source" else c.title,
    jurisdiction := c.jurisdiction, source_name := c.source_name,
    chunks := [], best_score := c.score, first_rank := rank }

/-- `group["chunks"].append(chunk)` plus the best-score update. -/
def appendChunk (g : SourceGroup) (c : ChunkHit) : SourceGroup :=
  { g with chunks := g.chunks ++ [c],
           best_score := if g.best_score < c.score then c.score else g.best_score }

/-- One iteration of the grouping loop (`rank, chunk = enumerate(chunk_hits)`):
insert a fresh group if the key is new (Python dicts keep insertion order, so
at the end), then append the hit to its group. -/
def addHit (gs : List (String × SourceGroup)) (rank : Nat) (c : ChunkHit) :
    List (String × SourceGroup) :=
  let gs2 := if (gs.lookup (sourceKey c)).isSome then gs
             else gs ++ [(sourceKey c, newGroup c rank)]
  gs2.map (fun kg => if kg.1 = sourceKey c then (kg.1, appendChunk kg.2 c) else kg)

/-- The `groups` dict after the whole grouping loop. -/
def buildGroups (hits : List ChunkHit) : List (String × SourceGroup) :=
  hits.enum.foldl (fun gs rc => addHit gs rc.1 rc.2) []

/-- The sort key `(-best_score, first_rank)` as a relation: higher best score
first, ties broken by the earlier first appearance. -/
def groupLE (g1 g2 : SourceGroup) : Prop :=
  g2.best_score < g1.best_score ∨
    (g1.best_score = g2.best_score ∧ g1.first_rank ≤ g2.first_rank)

instance : DecidableRel groupLE := fun g1 g2 => by
  unfold groupLE; infer_instance

instance : IsTotal SourceGroup groupLE where
  total a b := by
    unfold groupLE
    rcases lt_trichotomy a.best_score b.best_score with h | h | h
    · exact Or.inr (Or.inl h)
    · rcases Nat.le_total a.first_rank b.first_rank with hr | hr
      · exact Or.inl (Or.inr ⟨h, hr⟩)
      · exact Or.inr (Or.inr ⟨h.symm, hr⟩)
    · exact Or.inl (Or.inl h)

instance : IsTrans SourceGroup groupLE where
  trans a b c hab hbc := by
    unfold groupLE at hab hbc ⊢
    rcases hab with h1 | ⟨h1e, h1r⟩ <;> rcases hbc with h2 | ⟨h2e, h2r⟩
    · exact Or.inl (h2.trans h1)
    · exact Or.inl (h2e ▸ h1)
    · exact Or.inl (h1e ▸ h2)
    · exact Or.inr ⟨h1e.trans h2e, h1r.trans h2r⟩

/-- `sorted(..., key=lambda c: c["score"], reverse=True)` as a relation. -/
def scoreGE (a b : ChunkHit) : Prop := b.score ≤ a.score

instance : DecidableRel scoreGE := fun a b => by
  unfold scoreGE; infer_instance

instance : IsTotal ChunkHit scoreGE where
  total a b := by unfold scoreGE; exact le_total b.score a.score

instance : IsTrans ChunkHit scoreGE where
  trans _ _ _ hab hbc := le_trans hbc hab

def MAX_EXCERPTS_PER_SOURCE : Nat := 3

structure Excerpt where
  chunk_id : String
  score : ℚ
  text : String
deriving DecidableEq, Repr

structure RetrievedSource where
  source_id : String
  source_url : Option String
  source_name : Option String
  title : String
  jurisdiction : String
  score : ℚ
  doc_id : String
  excerpts : List Excerpt
deriving DecidableEq, Repr

/-- Build one returned source from a kept group: citation id `S<idx>`, the
group's metadata and best score, and at most `MAX_EXCERPTS_PER_SOURCE`
excerpts taken from its chunks sorted by descending score (Python's stable
sort is modelled by the stable `insertionSort`). -/
def mkSource (idx : Nat) (g : SourceGroup) : RetrievedSource :=
  { source_id := "S" ++ toString idx, source_url := g.source_url,
    source_name := g.source_name, title := g.title, jurisdiction := g.jurisdiction,
    score := g.best_score, doc_id := g.doc_id,
    excerpts := ((g.chunks.insertionSort scoreGE).take MAX_EXCERPTS_PER_SOURCE).map
      (fun c => { chunk_id := c.chunk_id, score := c.score, text := c.text }) }

/-- `max_sources = settings.top_sources if settings.top_sources > 0 else 1`. -/
def maxSourcesOf (top_sources : Int) : Nat :=
  if 0 < top_sources then top_sources.toNat else 1

/-- Lines 103–150 of src/app/rag/retriever.py: group, rank, trim, and assign
citation ids `S1, S2, …` (`enumerate(..., start=1)`). -/
def buildSources (hits : List ChunkHit) (top_sources : Int) : List RetrievedSource :=
  ((((buildGroups hits).map Prod.snd).insertionSort groupLE).take
      (maxSourcesOf top_sources)).enum.map (fun ig => mkSource (ig.1 + 1) ig.2)

structure RetrieveResult where
  sources : List RetrievedSource
  chunks_retrieved : Nat
  sources_deduped : Nat
deriving DecidableEq, Repr

def emptyResult : RetrieveResult :=
  { sources := [], chunks_retrieved := 0, sources_deduped := 0 }

/-- What `retrieve` reads from settings, the filesystem, and its external
collaborators. -/
structure RetrieverEnv where
  index_exists : Bool
  top_k : Int
  top_sources : Int
  embed_texts : List String → List (List ℚ)
  norm : List ℚ → ℚ
  index_search : List ℚ → Int → List (ℚ × Int)
  fetch_chunk : Int → Option ChunkMeta

/-- `top_k = top_k or settings.top_k`: `None` and `0` are falsy and fall back
to the configured default; any other value (negative included) is kept. -/
def effectiveTopK (setting : Int) (top_k : Option Int) : Int :=
  match top_k with
  | none => setting
  | some v => if v = 0 then setting else v

/-- `_normalize(vec)`: divide by the norm unless it is zero. -/
def pyNormalize (norm : List ℚ → ℚ) (v : List ℚ) : List ℚ :=
  if norm v = 0 then v else v.map (· / norm v)

/-- `retrieve(query, top_k)` from src/app/rag/retriever.py. -/
def retrieve (env : RetrieverEnv) (query : String) (top_k : Option Int) :
    RetrieveResult :=
  if pyStripString query = "" then emptyResult
  else if !env.index_exists then emptyResult
  else if effectiveTopK env.top_k top_k ≤ 0 then emptyResult
  else
    match env.embed_texts [pyStripString query] with
    | [] => emptyResult
    | qv :: _ =>
      let rows := env.index_search (pyNormalize env.norm qv)
        (effectiveTopK env.top_k top_k)
      let chunk_hits := rows.filterMap (fun si =>
        if si.2 < 0 then none
        else (env.fetch_chunk si.2).map (fun m => mkChunkHit m si.1))
      if chunk_hits.isEmpty then emptyResult
      else { sources := buildSources chunk_hits env.top_sources,
             chunks_retrieved := chunk_hits.length,
             sources_deduped := (buildGroups chunk_hits).length }

/-- C2 — corrected (a caller-supplied `top_k = 0` is falsy in Python, so
`top_k or settings.top_k` replaces it with the configured default rather than
rejecting).  With the effective top-k — the caller's value when non-`None` and
non-zero, else the configured default — `retrieve` returns the empty result,
without raising, whenever the query is blank, the Vector Index artifact does
not exist, or the effective top-k is non-positive. -/
theorem retrieve_empty_gates (env : RetrieverEnv) (q : String) (tk : Option Int) :
    (pyStripString q = "" → retrieve env q tk = emptyResult) ∧
    (env.index_exists = false → retrieve env q tk = emptyResult) ∧
    (effectiveTopK env.top_k tk ≤ 0 → retrieve env q tk = emptyResult) := by
  refine ⟨?_, ?_, ?_⟩
  · intro h
    simp [retrieve, h]
  · intro h
    by_cases hq : pyStripString q = ""
    · simp [retrieve, hq]
    · simp [retrieve, hq, h]
  · intro h
    by_cases hq : pyStripString q = ""
    · simp [retrieve, hq]
    · by_cases hi : env.index_exists
      · simp [retrieve, hq, hi, h]
      · simp [retrieve, hq, hi]

/-- Counterexample to C2 as stated: with a caller-supplied `top_k = 0`, a
non-blank query, an existing index with one matching row, and a configured
default `top_k = 2`, `retrieve` proceeds with the default and returns a
non-empty result instead of the empty one. -/
theorem retrieve_topk_zero_cex :
    retrieve
      { index_exists := true, top_k := 2, top_sources := 3,
        embed_texts := fun _ => [[1]], norm := fun _ => 0,
        index_search := fun _ _ => [(1, 0)],
        fetch_chunk := fun i => if i = 0 then
          some { chunk_id := "c0", text := "body", doc_id := "d", title := "T",
                 jurisdiction := "", source_url := some "u", source_name := some "n" }
          else none }
      "q" (some 0) ≠ emptyResult := by
  decide

/-- C5 — confirmed.  The sources returned by the ranking stage are an
arrangement of the groups sorted by `(-best_score, first_rank)` — descending
best score, ties by the lowest raw rank — truncated to `max_sources` (a
non-positive configured `top_sources` is treated as 1), each source carries at
most 3 excerpts which are the top of its group's chunks sorted by descending
score, and citation ids `S1, S2, …` are assigned 1-based in ranked order. -/
theorem buildSources_ranking (hits : List ChunkHit) (ts : Int) :
    (∃ arr : List SourceGroup,
      arr.Perm ((buildGroups hits).map Prod.snd) ∧
      List.Sorted groupLE arr ∧
      buildSources hits ts
        = (arr.take (maxSourcesOf ts)).enum.map (fun ig => mkSource (ig.1 + 1) ig.2)) ∧
    ((buildSources hits ts).length ≤ maxSourcesOf ts) ∧
    (0 < ts → maxSourcesOf ts = ts.toNat) ∧
    (ts ≤ 0 → maxSourcesOf ts = 1) ∧
    (∀ s ∈ buildSources hits ts, s.excerpts.length ≤ MAX_EXCERPTS_PER_SOURCE) ∧
    (∀ idx g, ∃ cs : List ChunkHit, cs.Perm g.chunks ∧ List.Sorted scoreGE cs ∧
      (mkSource idx g).excerpts
        = (cs.take MAX_EXCERPTS_PER_SOURCE).map
            (fun c => { chunk_id := c.chunk_id, score := c.score, text := c.text })) ∧
    (∀ i, ∀ h : i < (buildSources hits ts).length,
      ((buildSources hits ts).get ⟨i, h⟩).source_id = "S" ++ toString (i + 1)) := by
  refine ⟨?_, ?_, ?_, ?_, ?_, ?_, ?_⟩
  · exact ⟨((buildGroups hits).map Prod.snd).insertionSort groupLE,
      List.perm_insertionSort groupLE _, List.sorted_insertionSort groupLE _, rfl⟩
  · have h1 : (buildSources hits ts).length
        = min (maxSourcesOf ts)
            ((((buildGroups hits).map Prod.snd).insertionSort groupLE).length) := by
      simp [buildSources]
    rw [h1]
    exact Nat.min_le_left _ _
  · intro h
    simp [maxSourcesOf, h]
  · intro h
    have hn : ¬ (0 : Int) < ts := by omega
    simp [maxSourcesOf, hn]
  · intro s hs
    simp only [buildSources, List.mem_map] at hs
    obtain ⟨ig, hmem, rfl⟩ := hs
    simp only [mkSource, List.length_map, List.length_take]
    exact Nat.min_le_left _ _
  · intro idx g
    exact ⟨g.chunks.insertionSort scoreGE, List.perm_insertionSort scoreGE _,
      List.sorted_insertionSort scoreGE _, rfl⟩
  · intro i h
    simp only [buildSources, List.get_eq_getElem, List.getElem_map, List.getElem_enum]
    rfl

/-! ## Ingestion Pipeline — src/app/rag/ingest.py

`ingest_txt_corpus` deletes all Document/Chunk rows, then accumulates, over
every file in sorted order, one global list of chunk texts and parallel chunk
metadata (`chunk_id = f"{doc_id}_{idx}"`), embeds the whole list in a single
batch, L2-normalizes the vectors (zero norms replaced by 1 before dividing),
adds them to a fresh flat index in batch order, and writes one Chunk row per
metadata entry with `embedding_index = enumerate` position and
`text = chunk_texts[embedding_index]`.

Here a document is `(doc_id, raw file text)` — `doc_id` is the externally
drawn `uuid4` — and the embedding client and `np.linalg.norm` are function
parameters.  Lines are split on the newline character (Python `splitlines`
also recognizes rarer terminators; the final strip makes trailing-newline
handling agree). -/

/-- The body side of `_split_header_body`: every line after the first line
whose stripped text is `---`; no such line means everything is header. -/
def splitBodyLines (lines : List (List Char)) : List (List Char) :=
  (lines.dropWhile (fun l => !(pyStrip l == ['-', '-', '-']))).drop 1

/-- `body_text = "\n".join(body_lines).strip()`. -/
def ingestDocBody (raw : List Char) : List Char :=
  pyStrip (List.intercalate ['\n'] (splitBodyLines (raw.splitOn '\n')))

/-- One accumulated `chunk_meta` entry. -/
structure ChunkMetaRec where
  chunk_id : String
  doc_id : String
  chunk_index : Nat
deriving DecidableEq, Repr

/-- The body of `for idx, chunk in enumerate(chunks)`: append the chunk text
and its metadata (with `chunk_id = f"{doc_id}_{idx}"`) to the global
accumulators. -/
def chunkAccStep (did : String) (a : List (List Char) × List ChunkMetaRec)
    (ic : Nat × List Char) : List (List Char) × List ChunkMetaRec :=
  (a.1 ++ [ic.2],
   a.2 ++ [{ chunk_id := did ++ "_" ++ toString ic.1, doc_id := did,
             chunk_index := ic.1 }])

/-- Processing one corpus file: documents with an empty body contribute no
chunks; otherwise the body is chunked with the default `(1200, 150)` window
and accumulated. -/
def collectStep (acc : List (List Char) × List ChunkMetaRec)
    (d : String × List Char) : List (List Char) × List ChunkMetaRec :=
  if (ingestDocBody d.2).isEmpty then acc
  else ((chunk_text (ingestDocBody d.2) 1200 150).getD []).enum.foldl
    (chunkAccStep d.1) acc

/-- The global `(chunk_texts, chunk_meta)` accumulators after the file loop. -/
def collectChunks (docs : List (String × List Char)) :
    List (List Char) × List ChunkMetaRec :=
  docs.foldl collectStep ([], [])

/-- One row of the `chunks` table as written at the end of the run. -/
structure IngestedChunkRow where
  chunk_id : String
  doc_id : String
  chunk_index : Nat
  text : List Char
  embedding_index : Nat
deriving DecidableEq, Repr

/-- The `for embedding_index, meta in enumerate(chunk_meta)` insert loop. -/
def ingestChunkRows (docs : List (String × List Char)) : List IngestedChunkRow :=
  (collectChunks docs).2.enum.map (fun im =>
    { chunk_id := im.2.chunk_id, doc_id := im.2.doc_id,
      chunk_index := im.2.chunk_index,
      text := (collectChunks docs).1.getD im.1 [],
      embedding_index := im.1 })

/-- `_normalize_vectors` on one row: zero norms are replaced by 1 before the
division. -/
def rowNormalize (norm : List ℚ → ℚ) (v : List ℚ) : List ℚ :=
  v.map (· / (if norm v = 0 then 1 else norm v))

/-- The vectors added to the fresh flat index, in the one batch order. -/
def ingestVectors (norm : List ℚ → ℚ) (embed : List (List Char) → List (List ℚ))
    (docs : List (String × List Char)) : List (List ℚ) :=
  (embed (collectChunks docs).1).map (rowNormalize norm)

/-- The run's outcome: the result dict plus the state it wrote. -/
structure IngestResult where
  docs : Nat
  chunks : Nat
  rows : List IngestedChunkRow
  vectors : List (List ℚ)
  indexWritten : Bool

/-- `ingest_txt_corpus()` over a parsed corpus: counts, chunk rows, index
vectors; `indexWritten = false` models the zero-chunk runs that delete the
index file instead of writing one. -/
def ingest_txt_corpus (norm : List ℚ → ℚ)
    (embed : List (List Char) → List (List ℚ))
    (docs : List (String × List Char)) : IngestResult :=
  { docs := docs.length, chunks := (collectChunks docs).1.length,
    rows := ingestChunkRows docs, vectors := ingestVectors norm embed docs,
    indexWritten := !(collectChunks docs).1.isEmpty }

lemma chunkAccFold_len (did : String) (l : List (Nat × List Char)) :
    ∀ acc : List (List Char) × List ChunkMetaRec, acc.1.length = acc.2.length →
      (l.foldl (chunkAccStep did) acc).1.length
        = (l.foldl (chunkAccStep did) acc).2.length := by
  induction l with
  | nil => intro acc h; exact h
  | cons ic rest ih =>
    intro acc h
    exact ih (chunkAccStep did acc ic) (by simp [chunkAccStep, h])

lemma chunkAccFold_id (did : String) (l : List (Nat × List Char)) :
    ∀ acc : List (List Char) × List ChunkMetaRec,
      (∀ m ∈ acc.2, m.chunk_id = m.doc_id ++ "_" ++ toString m.chunk_index) →
      ∀ m ∈ (l.foldl (chunkAccStep did) acc).2,
        m.chunk_id = m.doc_id ++ "_" ++ toString m.chunk_index := by
  induction l with
  | nil => intro acc h; exact h
  | cons ic rest ih =>
    intro acc h
    refine ih (chunkAccStep did acc ic) ?_
    intro m hm
    simp only [chunkAccStep, List.mem_append, List.mem_singleton] at hm
    rcases hm with hm | hm
    · exact h m hm
    · subst hm; rfl

lemma collectChunks_len_aux (docs : List (String × List Char)) :
    ∀ acc : List (List Char) × List ChunkMetaRec, acc.1.length = acc.2.length →
      (docs.foldl collectStep acc).1.length = (docs.foldl collectStep acc).2.length := by
  induction docs with
  | nil => intro acc h; exact h
  | cons d rest ih =>
    intro acc h
    refine ih (collectStep acc d) ?_
    unfold collectStep
    by_cases hb : (ingestDocBody d.2).isEmpty
    · simpa [hb] using h
    · simp only [if_neg hb]
      exact chunkAccFold_len d.1 _ acc h

lemma collectChunks_id_aux (docs : List (String × List Char)) :
    ∀ acc : List (List Char) × List ChunkMetaRec,
      (∀ m ∈ acc.2, m.chunk_id = m.doc_id ++ "_" ++ toString m.chunk_index) →
      ∀ m ∈ (docs.foldl collectStep acc).2,
        m.chunk_id = m.doc_id ++ "_" ++ toString m.chunk_index := by
  induction docs with
  | nil => intro acc h; exact h
  | cons d rest ih =>
    intro acc h
    refine ih (collectStep acc d) ?_
    unfold collectStep
    by_cases hb : (ingestDocBody d.2).isEmpty
    · simpa [hb] using h
    · simp only [if_neg hb]
      exact chunkAccFold_id d.1 _ acc h

/-- C7 — confirmed.  After any ingestion run the Chunk rows' `embedding_index`
values are exactly `0 .. N-1` in order (dense, unique, contiguous), row `i`
carries the `i`-th text of the single global batch — the same list embedded in
one call and added to the index in the same order — and every `chunk_id` is
`{doc_id}_{chunk_index}`. -/
theorem ingest_lockstep (docs : List (String × List Char)) :
    ((collectChunks docs).1.length = (collectChunks docs).2.length) ∧
    ((ingestChunkRows docs).length = (collectChunks docs).1.length) ∧
    ((ingestChunkRows docs).map (fun r => r.embedding_index)
        = List.range (ingestChunkRows docs).length) ∧
    (∀ i, ∀ h : i < (ingestChunkRows docs).length,
      ((ingestChunkRows docs).get ⟨i, h⟩).text = (collectChunks docs).1.getD i []) ∧
    (∀ r ∈ ingestChunkRows docs,
      r.chunk_id = r.doc_id ++ "_" ++ toString r.chunk_index) ∧
    (∀ norm embed, ingestVectors norm embed docs
        = (embed (collectChunks docs).1).map (rowNormalize norm)) := by
  have hlen : (collectChunks docs).1.length = (collectChunks docs).2.length :=
    collectChunks_len_aux docs ([], []) rfl
  refine ⟨hlen, ?_, ?_, ?_, ?_, fun norm embed => rfl⟩
  · simp [ingestChunkRows, hlen]
  · have h1 : (ingestChunkRows docs).map (fun r => r.embedding_index)
        = (collectChunks docs).2.enum.map Prod.fst := by
      simp only [ingestChunkRows, List.map_map]
      rfl
    have h2 : (ingestChunkRows docs).length = (collectChunks docs).2.length := by
      simp [ingestChunkRows]
    rw [h1, h2, List.enum_map_fst]
  · intro i h
    simp only [ingestChunkRows, List.get_eq_getElem, List.getElem_map, List.getElem_enum]
  · intro r hr
    simp only [ingestChunkRows, List.mem_map] at hr
    obtain ⟨im, hmem, rfl⟩ := hr
    have hm : im.2 ∈ (collectChunks docs).2 := List.snd_mem_of_mem_enum hmem
    exact collectChunks_id_aux docs ([], []) (by intro m hm2; simp at hm2) im.2 hm
